import Mathlib

/-!
Verification development for the fleet route optimization engine
(`services/routing.py`, `services/maps.py`, `mapFleet/services/route_manager.py`,
`mapFleet/services/geocoder.py`).

Embedding conventions:
* Python `int` matrix entries (meters / seconds) are embedded as `ℤ`;
  `route_manager`'s float kilometres/minutes are embedded as `ℚ`.
* Python's `min(iterable, key=f)` returns the first element attaining the
  minimum; it is embedded as `argmin`, which returns the first minimal index
  together with the element.
* The haversine great-circle distance is computed by the source in floating
  point transcendental arithmetic; every claim about the stop-assignment code
  holds for an arbitrary distance function, so the assignment logic is
  embedded parameterized over `dist : Coord → Coord → ℚ`.
* `while pool:` loops that pop one element per iteration run exactly
  `pool.length` times; they are embedded with a structural fuel argument that
  callers instantiate with the pool length.
* The external distance-matrix service is modelled as a function giving one
  response element per (origin index, destination index) pair, per spec §6.
-/

abbrev Coord := ℚ × ℚ

/-- First minimal element of a list under a key function, together with its
index: the embedding of Python's `min(range(len(l)), key=...)` /
`min(l, key=...)` (which return the first element attaining the minimum).
Returns `none` on the empty list (Python raises there; the sources only call
it on non-empty pools). -/
def argmin {α β : Type} [LinearOrder β] (f : α → β) : List α → Option (ℕ × α)
  | [] => none
  | x :: xs =>
    match argmin f xs with
    | none => some (0, x)
    | some (j, y) => if f x ≤ f y then some (0, x) else some (j + 1, y)

theorem argmin_eq_none {α β : Type} [LinearOrder β] (f : α → β) (l : List α) :
    argmin f l = none ↔ l = [] := by
  cases l with
  | nil => simp [argmin]
  | cons x xs =>
    simp only [argmin]
    cases argmin f xs with
    | none => simp
    | some p => cases p with | mk j y => by_cases h : f x ≤ f y <;> simp [h]

theorem argmin_lt_length {α β : Type} [LinearOrder β] (f : α → β) :
    ∀ (l : List α) (i : ℕ) (y : α), argmin f l = some (i, y) → i < l.length := by
  intro l
  induction l with
  | nil => intro i y h; simp [argmin] at h
  | cons x xs ih =>
    intro i y h
    cases hxs : argmin f xs with
    | none =>
      simp only [argmin, hxs, Option.some.injEq, Prod.mk.injEq] at h
      obtain ⟨h1, h2⟩ := h
      rw [← h1]
      simp
    | some p =>
      obtain ⟨j, z⟩ := p
      simp only [argmin, hxs] at h
      split at h
      · simp only [Option.some.injEq, Prod.mk.injEq] at h
        obtain ⟨h1, h2⟩ := h
        rw [← h1]
        simp
      · simp only [Option.some.injEq, Prod.mk.injEq] at h
        obtain ⟨h1, h2⟩ := h
        have := ih j z hxs
        simp only [List.length_cons]
        omega

/-- The selected element heads a permutation of the list with the selected
index erased: popping the argmin rearranges but never loses elements. -/
theorem argmin_perm {α β : Type} [LinearOrder β] (f : α → β) :
    ∀ (l : List α) (i : ℕ) (y : α), argmin f l = some (i, y) →
      l.Perm (y :: l.eraseIdx i) := by
  intro l
  induction l with
  | nil => intro i y h; simp [argmin] at h
  | cons x xs ih =>
    intro i y h
    cases hxs : argmin f xs with
    | none =>
      simp only [argmin, hxs, Option.some.injEq, Prod.mk.injEq] at h
      obtain ⟨h1, h2⟩ := h
      subst h2
      rw [← h1]
      simp
    | some p =>
      obtain ⟨j, z⟩ := p
      simp only [argmin, hxs] at h
      split at h
      · simp only [Option.some.injEq, Prod.mk.injEq] at h
        obtain ⟨h1, h2⟩ := h
        subst h2
        rw [← h1]
        simp
      · simp only [Option.some.injEq, Prod.mk.injEq] at h
        obtain ⟨h1, h2⟩ := h
        rw [← h1, ← h2, List.eraseIdx_cons_succ]
        have hp := ih j z hxs
        have h3 : (x :: xs).Perm (x :: z :: xs.eraseIdx j) := hp.cons x
        have h4 : (x :: z :: xs.eraseIdx j).Perm (z :: x :: xs.eraseIdx j) :=
          List.Perm.swap z x _
        exact h3.trans h4

theorem argmin_length_eraseIdx {α β : Type} [LinearOrder β] (f : α → β)
    (l : List α) (i : ℕ) (y : α) (h : argmin f l = some (i, y)) :
    (l.eraseIdx i).length + 1 = l.length := by
  have := (argmin_perm f l i y h).length_eq
  simpa using this.symm

-- ---------------------------------------------------------------------------
-- services/routing.py : _route_cost and _two_opt
-- ---------------------------------------------------------------------------

/-- Embedding of `_route_cost(order, matrix)`: total cost along consecutive
edges of `order`.  The matrix is embedded as a total function on indices (the
sources only ever index within bounds). -/
def route_cost (M : ℕ → ℕ → ℤ) (order : List ℕ) : ℤ :=
  ((order.zip order.tail).map (fun ab => M ab.1 ab.2)).sum

/-- One candidate 2-opt move of `_two_opt`'s inner loop body: skip `j == i+1`,
otherwise build `best[:i] + best[i:j][::-1] + best[j:]` and accept it when it
strictly lowers the tracked cost.  State is `(best, best_cost, improved)`. -/
def two_opt_step (M : ℕ → ℕ → ℤ) (st : List ℕ × ℤ × Bool) (ij : ℕ × ℕ) :
    List ℕ × ℤ × Bool :=
  if ij.2 = ij.1 + 1 then st
  else
    let newOrder := st.1.take ij.1 ++ ((st.1.drop ij.1).take (ij.2 - ij.1)).reverse
      ++ st.1.drop ij.2
    let newCost := route_cost M newOrder
    if newCost < st.2.1 then (newOrder, newCost, true) else st

/-- The `(i, j)` pairs visited by one pass of `_two_opt`:
`i` in `range(1, n-2)`, `j` in `range(i+1, n-1)`. -/
def pass_pairs (n : ℕ) : List (ℕ × ℕ) :=
  (List.range' 1 (n - 3)).flatMap
    (fun i => (List.range' (i + 1) (n - i - 2)).map (fun j => (i, j)))

/-- One full pass of `_two_opt`'s nested `for` loops. -/
def two_opt_pass (M : ℕ → ℕ → ℤ) (n : ℕ) (st : List ℕ × ℤ × Bool) :
    List ℕ × ℤ × Bool :=
  (pass_pairs n).foldl (two_opt_step M) st

/-- The `for _ in range(max_passes)` loop of `_two_opt`, breaking when a pass
makes no improvement. -/
def two_opt_loop (M : ℕ → ℕ → ℤ) (n : ℕ) : ℕ → List ℕ × ℤ → List ℕ × ℤ
  | 0, bc => bc
  | fuel + 1, bc =>
    match two_opt_pass M n (bc.1, bc.2, false) with
    | (b, c, improved) => if improved then two_opt_loop M n fuel (b, c) else (b, c)

/-- Embedding of `_two_opt(order, matrix, max_passes)`: 2-opt improvement of a
round-trip order, never touching the depot endpoints. -/
def two_opt (M : ℕ → ℕ → ℤ) (maxPasses : ℕ) (order : List ℕ) : List ℕ :=
  if order.length < 5 then order
  else (two_opt_loop M order.length maxPasses (order, route_cost M order)).1

-- ---------------------------------------------------------------------------
-- services/routing.py : _nearest_neighbor_order
-- ---------------------------------------------------------------------------

/-- The `while unvisited:` loop of `_nearest_neighbor_order`.  The Python
`set` of remaining indices is modelled as an ascending list (`min` over a set
of small naturals scans them in ascending order); fuel is the initial number
of unvisited nodes, which is exactly how many iterations the loop runs. -/
def nn_aux (M : ℕ → ℕ → ℤ) : ℕ → ℕ → List ℕ → List ℕ
  | 0, _, _ => []
  | fuel + 1, current, unvisited =>
    match argmin (fun j => M current j) unvisited with
    | none => []
    | some (i, nxt) => nxt :: nn_aux M fuel nxt (unvisited.eraseIdx i)

/-- Embedding of `_nearest_neighbor_order(time_matrix)`: nearest-neighbor
round trip starting at node 0, for a matrix over `n` nodes.
`n <= 1` returns `list(range(n)) + ([0] if n == 1 else [])`. -/
def nearest_neighbor_order (M : ℕ → ℕ → ℤ) (n : ℕ) : List ℕ :=
  if n = 0 then []
  else if n = 1 then [0, 0]
  else (0 :: nn_aux M (n - 1) 0 (List.range' 1 (n - 1))) ++ [0]

-- ---------------------------------------------------------------------------
-- Invariants of _two_opt
-- ---------------------------------------------------------------------------

/-- Invariant carried by `_two_opt`'s `(best, best_cost)` state: `best` is a
permutation of the input order with the same first and last node, and
`best_cost` is its route cost. -/
def TwoOptInv (M : ℕ → ℕ → ℤ) (ord : List ℕ) (bc : List ℕ × ℤ) : Prop :=
  bc.1.Perm ord ∧ bc.1.head? = ord.head? ∧ bc.1.getLast? = ord.getLast? ∧
    bc.2 = route_cost M bc.1

theorem head?_take_append {L X : List ℕ} {i : ℕ} (hi : 1 ≤ i) (hL : L ≠ []) :
    (L.take i ++ X).head? = L.head? := by
  cases L with
  | nil => exact absurd rfl hL
  | cons a as =>
    cases i with
    | zero => omega
    | succ i' => simp [List.take]

theorem getLast?_drop {L : List ℕ} {j : ℕ} (hj : j < L.length) :
    (L.drop j).getLast? = L.getLast? := by
  have hne : L.drop j ≠ [] := by
    intro h
    have := List.drop_eq_nil_iff.mp h
    omega
  conv_rhs => rw [← List.take_append_drop j L]
  rw [List.getLast?_append_of_ne_nil _ hne]

/-- The decomposition used by a 2-opt reversal: the order splits at `i` and
`j`. -/
theorem take_reverse_drop_decomp (L : List ℕ) {i j : ℕ} (hij : i ≤ j) :
    L.take i ++ ((L.drop i).take (j - i) ++ L.drop j) = L := by
  have h1 : L.drop j = (L.drop i).drop (j - i) := by
    rw [List.drop_drop]
    congr 1
    omega
  rw [h1, List.take_append_drop, List.take_append_drop]

theorem two_opt_step_inv (M : ℕ → ℕ → ℤ) (ord : List ℕ)
    (st : List ℕ × ℤ × Bool) (ij : ℕ × ℕ) (h5 : 5 ≤ ord.length)
    (hi : 1 ≤ ij.1) (hij : ij.1 + 1 ≤ ij.2) (hj : ij.2 ≤ ord.length - 2)
    (hinv : TwoOptInv M ord (st.1, st.2.1)) :
    TwoOptInv M ord ((two_opt_step M st ij).1, (two_opt_step M st ij).2.1) ∧
      (two_opt_step M st ij).2.1 ≤ st.2.1 := by
  obtain ⟨hperm, hhead, hlast, hcost⟩ := hinv
  unfold two_opt_step
  by_cases hskip : ij.2 = ij.1 + 1
  · simp only [hskip, if_pos rfl]
    exact ⟨⟨hperm, hhead, hlast, hcost⟩, le_refl _⟩
  · simp only [if_neg hskip]
    set L := st.1 with hL
    have hlen : L.length = ord.length := hperm.length_eq
    have hijle : ij.1 ≤ ij.2 := by omega
    set newOrder := L.take ij.1 ++ ((L.drop ij.1).take (ij.2 - ij.1)).reverse
      ++ L.drop ij.2 with hNew
    have hLne : L ≠ [] := by
      intro h
      rw [h] at hlen
      simp at hlen
      omega
    have hdecomp := take_reverse_drop_decomp L hijle
    have hpermNew : newOrder.Perm L := by
      rw [hNew, List.append_assoc]
      conv_rhs => rw [← hdecomp]
      exact List.Perm.append_left _
        (List.Perm.append_right _ (List.reverse_perm _))
    have hheadNew : newOrder.head? = L.head? := by
      rw [hNew, List.append_assoc]
      exact head?_take_append hi hLne
    have hlastNew : newOrder.getLast? = L.getLast? := by
      rw [hNew, List.append_assoc, ← List.append_assoc]
      rw [List.getLast?_append_of_ne_nil _ (by
        intro h
        have := List.drop_eq_nil_iff.mp h
        omega)]
      exact getLast?_drop (by omega)
    by_cases hacc : route_cost M newOrder < st.2.1
    · simp only [if_pos hacc]
      refine ⟨⟨hpermNew.trans hperm, ?_, ?_, rfl⟩, le_of_lt ?_⟩
      · rw [hheadNew, hhead]
      · rw [hlastNew, hlast]
      · exact hacc
    · simp only [if_neg hacc]
      exact ⟨⟨hperm, hhead, hlast, hcost⟩, le_refl _⟩

theorem pass_pairs_mem {n : ℕ} {p : ℕ × ℕ} (hp : p ∈ pass_pairs n) :
    1 ≤ p.1 ∧ p.1 + 1 ≤ p.2 ∧ p.2 ≤ n - 2 := by
  unfold pass_pairs at hp
  rw [List.mem_flatMap] at hp
  obtain ⟨i, hi, hpj⟩ := hp
  rw [List.mem_map] at hpj
  obtain ⟨j, hj, hpe⟩ := hpj
  rw [List.mem_range'_1] at hi
  rw [List.mem_range'_1] at hj
  subst hpe
  omega

theorem two_opt_fold_inv (M : ℕ → ℕ → ℤ) (ord : List ℕ) (h5 : 5 ≤ ord.length) :
    ∀ (pairs : List (ℕ × ℕ)) (st : List ℕ × ℤ × Bool),
      (∀ p ∈ pairs, 1 ≤ p.1 ∧ p.1 + 1 ≤ p.2 ∧ p.2 ≤ ord.length - 2) →
      TwoOptInv M ord (st.1, st.2.1) →
      TwoOptInv M ord ((pairs.foldl (two_opt_step M) st).1,
        (pairs.foldl (two_opt_step M) st).2.1) ∧
        (pairs.foldl (two_opt_step M) st).2.1 ≤ st.2.1 := by
  intro pairs
  induction pairs with
  | nil => intro st hmem hinv; exact ⟨hinv, le_refl _⟩
  | cons p ps ih =>
    intro st hmem hinv
    obtain ⟨h1, h2, h3⟩ := hmem p (by simp)
    have hstep := two_opt_step_inv M ord st p h5 h1 h2 h3 hinv
    have hrest := ih (two_opt_step M st p)
      (fun q hq => hmem q (by simp [hq])) hstep.1
    exact ⟨hrest.1, le_trans hrest.2 hstep.2⟩

theorem two_opt_pass_inv (M : ℕ → ℕ → ℤ) (ord : List ℕ) (h5 : 5 ≤ ord.length)
    (st : List ℕ × ℤ × Bool) (hinv : TwoOptInv M ord (st.1, st.2.1)) :
    TwoOptInv M ord ((two_opt_pass M ord.length st).1,
      (two_opt_pass M ord.length st).2.1) ∧
      (two_opt_pass M ord.length st).2.1 ≤ st.2.1 :=
  two_opt_fold_inv M ord h5 (pass_pairs ord.length) st
    (fun _ hp => pass_pairs_mem hp) hinv

theorem two_opt_loop_inv (M : ℕ → ℕ → ℤ) (ord : List ℕ) (h5 : 5 ≤ ord.length) :
    ∀ (fuel : ℕ) (bc : List ℕ × ℤ), TwoOptInv M ord bc →
      TwoOptInv M ord (two_opt_loop M ord.length fuel bc) ∧
        (two_opt_loop M ord.length fuel bc).2 ≤ bc.2 := by
  intro fuel
  induction fuel with
  | zero => intro bc hinv; exact ⟨hinv, le_refl _⟩
  | succ fuel ih =>
    intro bc hinv
    have hpass := two_opt_pass_inv M ord h5 (bc.1, bc.2, false) (by simpa using hinv)
    rw [two_opt_loop]
    cases hP : two_opt_pass M ord.length (bc.1, bc.2, false) with
    | mk b rest =>
      obtain ⟨c, improved⟩ := rest
      rw [hP] at hpass
      simp only at hpass
      cases improved with
      | true =>
        simp only [if_pos rfl]
        have hrec := ih (b, c) hpass.1
        exact ⟨hrec.1, le_trans hrec.2 hpass.2⟩
      | false =>
        simp only [Bool.false_eq_true, if_neg]
        exact ⟨hpass.1, hpass.2⟩

/-- Full behavioural summary of `_two_opt`: the result is a permutation of
the input order with unchanged endpoints, and its route cost never exceeds
the input's. -/
theorem two_opt_spec (M : ℕ → ℕ → ℤ) (maxPasses : ℕ) (order : List ℕ) :
    (two_opt M maxPasses order).Perm order ∧
      (two_opt M maxPasses order).head? = order.head? ∧
      (two_opt M maxPasses order).getLast? = order.getLast? ∧
      route_cost M (two_opt M maxPasses order) ≤ route_cost M order := by
  unfold two_opt
  by_cases h : order.length < 5
  · simp [h]
  · simp only [if_neg h]
    have h5 : 5 ≤ order.length := by omega
    have hloop := two_opt_loop_inv M order h5 maxPasses
      (order, route_cost M order) ⟨List.Perm.refl _, rfl, rfl, rfl⟩
    obtain ⟨⟨hperm, hhead, hlast, hcost⟩, hle⟩ := hloop
    exact ⟨hperm, hhead, hlast, by rw [← hcost]; exact hle⟩

/-- C3: for every duration matrix, every pass budget and every node count,
the round-trip cost of `_two_opt` applied to the nearest-neighbor initial
order is at most the cost of that initial nearest-neighbor order: 2-opt never
worsens the tour. -/
theorem two_opt_never_worsens_nearest_neighbor (M : ℕ → ℕ → ℤ)
    (maxPasses n : ℕ) :
    route_cost M (two_opt M maxPasses (nearest_neighbor_order M n)) ≤
      route_cost M (nearest_neighbor_order M n) :=
  (two_opt_spec M maxPasses (nearest_neighbor_order M n)).2.2.2

/-- C10: for every input order and cost matrix, `_two_opt` returns a
permutation of the input order (no node dropped or duplicated) whose first
and last elements equal the input's first and last elements. -/
theorem two_opt_permutes_and_fixes_endpoints (M : ℕ → ℕ → ℤ)
    (maxPasses : ℕ) (order : List ℕ) :
    (two_opt M maxPasses order).Perm order ∧
      (two_opt M maxPasses order).head? = order.head? ∧
      (two_opt M maxPasses order).getLast? = order.getLast? :=
  ⟨(two_opt_spec M maxPasses order).1, (two_opt_spec M maxPasses order).2.1,
    (two_opt_spec M maxPasses order).2.2.1⟩

-- ---------------------------------------------------------------------------
-- Distance-matrix service responses and matrix assembly
-- (services/maps.py MapsService._build_full_matrix,
--  services/routing.py _distance_time_matrices_gmaps_chunked,
--  mapFleet/services/route_manager.py _build_distance_time_matrices)
-- ---------------------------------------------------------------------------

/-- One element of a distance-matrix service response: a status flag and,
when present, distance (meters) and duration (seconds) values.  The sources
read the values with `dict.get(..., default)`, embedded as `Option.getD`. -/
structure Element where
  status : String
  distanceValue : Option ℤ
  durationValue : Option ℤ
deriving DecidableEq

/-- A full service response: one element per (origin index, destination
index) pair.  Tile calls return the sub-grid of this response at the tile's
index offsets. -/
abbrev Resp := ℕ → ℕ → Element

def TILE_SIZE : ℕ := 10

/-- Point update of a matrix represented as a total function:
`M[i][j] = v` / `M[i, j] = v`. -/
def mset {γ : Type} (M : ℕ → ℕ → γ) (i j : ℕ) (v : γ) : ℕ → ℕ → γ :=
  fun a b => if a = i ∧ b = j then v else M a b

/-- The tile start offsets `range(0, n, TILE_SIZE)`. -/
def tiles (n : ℕ) : List ℕ :=
  List.range' 0 ((n + TILE_SIZE - 1) / TILE_SIZE) TILE_SIZE

/-- The global `(i, j)` cells written while processing the tile with origin
offset `i0` and destination offset `j0` (rows `oi`, elements `dj`). -/
def tile_cells (n i0 j0 : ℕ) : List (ℕ × ℕ) :=
  (List.range (min (i0 + TILE_SIZE) n - i0)).flatMap (fun oi =>
    (List.range (min (j0 + TILE_SIZE) n - j0)).map (fun dj => (i0 + oi, j0 + dj)))

/-- All cells in the order the nested tile loops write them. -/
def write_order (n : ℕ) : List (ℕ × ℕ) :=
  (tiles n).flatMap (fun i0 => (tiles n).flatMap (fun j0 => tile_cells n i0 j0))

/-- Assembling one matrix by folding the per-cell writes of the tile loops
over an initial matrix. -/
def assemble {γ : Type} (cell : ℕ → ℕ → γ) (init : ℕ → ℕ → γ) (n : ℕ) :
    ℕ → ℕ → γ :=
  (write_order n).foldl (fun M ij => mset M ij.1 ij.2 (cell ij.1 ij.2)) init

theorem foldl_mset_eq_of_not_mem {γ : Type} (cell : ℕ → ℕ → γ) :
    ∀ (l : List (ℕ × ℕ)) (M0 : ℕ → ℕ → γ) (i j : ℕ), (i, j) ∉ l →
      (l.foldl (fun M ij => mset M ij.1 ij.2 (cell ij.1 ij.2)) M0) i j = M0 i j := by
  intro l
  induction l with
  | nil => intro M0 i j _; rfl
  | cons p ps ih =>
    intro M0 i j hmem
    rw [List.foldl_cons]
    rw [ih _ i j (fun hc => hmem (List.mem_cons_of_mem p hc))]
    unfold mset
    have hne : ¬(i = p.1 ∧ j = p.2) := by
      intro hc
      apply hmem
      have : p = (i, j) := by
        cases p
        simp at hc ⊢
        exact ⟨hc.1.symm, hc.2.symm⟩
      rw [this]
      exact List.mem_cons_self _ _
    rw [if_neg hne]

/-- Each write stores a value depending only on the cell's own coordinates,
so once a cell is in the write list its final value is its cell formula. -/
theorem foldl_mset_eq_of_mem {γ : Type} (cell : ℕ → ℕ → γ) :
    ∀ (l : List (ℕ × ℕ)) (M0 : ℕ → ℕ → γ) (i j : ℕ), (i, j) ∈ l →
      (l.foldl (fun M ij => mset M ij.1 ij.2 (cell ij.1 ij.2)) M0) i j = cell i j := by
  intro l
  induction l with
  | nil => intro M0 i j h; simp at h
  | cons p ps ih =>
    intro M0 i j hmem
    rw [List.foldl_cons]
    by_cases hps : (i, j) ∈ ps
    · exact ih _ i j hps
    · have hp : p = (i, j) := by
        rcases List.mem_cons.mp hmem with h | h
        · exact h.symm
        · exact absurd h hps
      rw [foldl_mset_eq_of_not_mem cell ps _ i j hps, hp]
      unfold mset
      rw [if_pos ⟨rfl, rfl⟩]

theorem mem_tiles {n k : ℕ} (hk : k < n) :
    TILE_SIZE * (k / TILE_SIZE) ∈ tiles n := by
  unfold tiles
  rw [List.mem_range']
  refine ⟨k / TILE_SIZE, ?_, by omega⟩
  have h1 : TILE_SIZE * (k / TILE_SIZE) ≤ k := Nat.mul_div_le k TILE_SIZE
  have h2 : k / TILE_SIZE < (n + TILE_SIZE - 1) / TILE_SIZE ↔
      TILE_SIZE * (k / TILE_SIZE) < n + TILE_SIZE - 1 + 1 - TILE_SIZE := by
    rw [Nat.div_lt_iff_lt_mul (by decide : 0 < TILE_SIZE)]
    constructor <;> intro <;> unfold TILE_SIZE at * <;> omega
  rw [h2]
  unfold TILE_SIZE at *
  omega

theorem mem_tile_cells {n i j i0 j0 : ℕ} (hi : i < n) (hj : j < n)
    (hi0 : i0 = TILE_SIZE * (i / TILE_SIZE)) (hj0 : j0 = TILE_SIZE * (j / TILE_SIZE)) :
    (i, j) ∈ tile_cells n i0 j0 := by
  unfold tile_cells
  rw [List.mem_flatMap]
  have hiparts : i0 + i % TILE_SIZE = i := by
    rw [hi0]
    exact Nat.div_add_mod i TILE_SIZE
  have hjparts : j0 + j % TILE_SIZE = j := by
    rw [hj0]
    exact Nat.div_add_mod j TILE_SIZE
  have himod : i % TILE_SIZE < TILE_SIZE := Nat.mod_lt _ (by decide)
  have hjmod : j % TILE_SIZE < TILE_SIZE := Nat.mod_lt _ (by decide)
  refine ⟨i % TILE_SIZE, ?_, ?_⟩
  · rw [List.mem_range]
    omega
  · rw [List.mem_map]
    refine ⟨j % TILE_SIZE, ?_, ?_⟩
    · rw [List.mem_range]
      omega
    · rw [hiparts, hjparts]

theorem mem_write_order {n i j : ℕ} (hi : i < n) (hj : j < n) :
    (i, j) ∈ write_order n := by
  unfold write_order
  rw [List.mem_flatMap]
  refine ⟨TILE_SIZE * (i / TILE_SIZE), mem_tiles hi, ?_⟩
  rw [List.mem_flatMap]
  exact ⟨TILE_SIZE * (j / TILE_SIZE), mem_tiles hj,
    mem_tile_cells hi hj rfl rfl⟩

/-- In-range cells of an assembled matrix carry their per-cell formula. -/
theorem assemble_eq_cell {γ : Type} (cell : ℕ → ℕ → γ) (init : ℕ → ℕ → γ)
    {n i j : ℕ} (hi : i < n) (hj : j < n) :
    assemble cell init n i j = cell i j :=
  foldl_mset_eq_of_mem cell (write_order n) init i j (mem_write_order hi hj)

/-- The sentinel cost `10**9` used for unreachable legs. -/
def BIG : ℤ := 10 ^ 9

/-- Per-cell distance value of `MapsService._build_full_matrix`:
`el.get("distance", {}).get("value", 0)` when the status is `"OK"`,
otherwise `0` on the diagonal and the sentinel off it. -/
def maps_dm_cell (resp : Resp) (i j : ℕ) : ℤ :=
  if (resp i j).status = "OK" then (resp i j).distanceValue.getD 0
  else if i = j then 0 else BIG

/-- Per-cell duration value of `MapsService._build_full_matrix`. -/
def maps_tm_cell (resp : Resp) (i j : ℕ) : ℤ :=
  if (resp i j).status = "OK" then (resp i j).durationValue.getD 0
  else if i = j then 0 else BIG

/-- Embedding of `MapsService._build_full_matrix(locations)` for `n`
locations, given the service response grid: `(dm, tm)`, both initialized to
`np.zeros` and filled tile by tile. -/
def build_full_matrix (resp : Resp) (n : ℕ) : (ℕ → ℕ → ℤ) × (ℕ → ℕ → ℤ) :=
  (assemble (maps_dm_cell resp) (fun _ _ => 0) n,
   assemble (maps_tm_cell resp) (fun _ _ => 0) n)

/-- Per-cell duration value of `_distance_time_matrices_gmaps_chunked`
(services/routing.py): missing values default to `BIG` there. -/
def routing_tm_cell (resp : Resp) (i j : ℕ) : ℤ :=
  if (resp i j).status = "OK" then (resp i j).durationValue.getD BIG
  else if i = j then 0 else BIG

/-- Per-cell distance value of `_distance_time_matrices_gmaps_chunked`. -/
def routing_dm_cell (resp : Resp) (i j : ℕ) : ℤ :=
  if (resp i j).status = "OK" then (resp i j).distanceValue.getD BIG
  else if i = j then 0 else BIG

/-- Initial matrices of `_distance_time_matrices_gmaps_chunked`:
`0 if i == j else BIG`. -/
def routing_init (i j : ℕ) : ℤ := if i = j then 0 else BIG

/-- Embedding of `_distance_time_matrices_gmaps_chunked(client, locations)`
for `n` locations, given the response grid: returns `(tm, dm)`. -/
def distance_time_matrices_gmaps_chunked (resp : Resp) (n : ℕ) :
    (ℕ → ℕ → ℤ) × (ℕ → ℕ → ℤ) :=
  (assemble (routing_tm_cell resp) routing_init n,
   assemble (routing_dm_cell resp) routing_init n)

/-- The `(i, j)` cells of `_build_distance_time_matrices`
(route_manager.py) in write order: plain `for i in range(n)`,
`for j in range(n)` loops over a single whole-matrix response. -/
def grid_order (n : ℕ) : List (ℕ × ℕ) :=
  (List.range n).flatMap (fun i => (List.range n).map (fun j => (i, j)))

/-- Per-cell distance (kilometres) of `_build_distance_time_matrices`:
non-"OK" elements are recorded as `0.0` (`dist_m = 0.0`), otherwise the
metres value; the cell stores `dist_m / 1000.0`. -/
def rm_dmat_cell (resp : Resp) (i j : ℕ) : ℚ :=
  (if (resp i j).status ≠ "OK" then 0
   else ((resp i j).distanceValue.getD 0 : ℚ)) / 1000

/-- Per-cell time (minutes) of `_build_distance_time_matrices`:
non-"OK" elements are recorded as `0.0` (`dur_s = 0.0`), otherwise the
seconds value; the cell stores `dur_s / 60.0`. -/
def rm_tmat_cell (resp : Resp) (i j : ℕ) : ℚ :=
  (if (resp i j).status ≠ "OK" then 0
   else ((resp i j).durationValue.getD 0 : ℚ)) / 60

/-- Embedding of route_manager's `_build_distance_time_matrices` for `n`
locations: `(dmat, tmat)` filled from a single whole-matrix response. -/
def build_distance_time_matrices (resp : Resp) (n : ℕ) :
    (ℕ → ℕ → ℚ) × (ℕ → ℕ → ℚ) :=
  ((grid_order n).foldl
      (fun M ij => mset M ij.1 ij.2 (rm_dmat_cell resp ij.1 ij.2)) (fun _ _ => 0),
   (grid_order n).foldl
      (fun M ij => mset M ij.1 ij.2 (rm_tmat_cell resp ij.1 ij.2)) (fun _ _ => 0))

/-- A response whose pair (0, 1) has no route: element status "NOT_FOUND". -/
def not_found_resp : Resp := fun i j =>
  if i = 0 ∧ j = 1 then ⟨"NOT_FOUND", none, none⟩ else ⟨"OK", some 5, some 7⟩

/-- C2: on a response where the service reports "NOT_FOUND" for the
off-diagonal pair (0, 1), `MapsService._build_full_matrix` records the
sentinel `10**9` in both matrices, but route_manager's
`_build_distance_time_matrices` records `0.0` in both of its matrices —
contradicting the claim (and the spec) that every matrix builder stores the
very-large sentinel, never zero, for such cells. -/
theorem build_matrices_not_found_cell :
    (build_full_matrix not_found_resp 2).1 0 1 = 10 ^ 9 ∧
      (build_full_matrix not_found_resp 2).2 0 1 = 10 ^ 9 ∧
      (build_distance_time_matrices not_found_resp 2).1 0 1 = 0 ∧
      (build_distance_time_matrices not_found_resp 2).2 0 1 = 0 := by
  refine ⟨by decide, by decide, ?_, ?_⟩
  · have h0 : (build_distance_time_matrices not_found_resp 2).1 0 1
        = rm_dmat_cell not_found_resp 0 1 :=
      foldl_mset_eq_of_mem (rm_dmat_cell not_found_resp) (grid_order 2)
        (fun _ _ => 0) 0 1 (by decide)
    rw [h0]
    norm_num [rm_dmat_cell, not_found_resp]
  · have h0 : (build_distance_time_matrices not_found_resp 2).2 0 1
        = rm_tmat_cell not_found_resp 0 1 :=
      foldl_mset_eq_of_mem (rm_tmat_cell not_found_resp) (grid_order 2)
        (fun _ _ => 0) 0 1 (by decide)
    rw [h0]
    norm_num [rm_tmat_cell, not_found_resp]

/-- C6 (amended): both tile-based matrix builders
(`MapsService._build_full_matrix` and
`_distance_time_matrices_gmaps_chunked`) produce zero diagonals, provided
every diagonal element the service reports as "OK" carries explicit zero
distance and duration values (the service reports 0 m / 0 s for an origin
equal to its destination); the source copies the service's diagonal values
verbatim in the "OK" case, so the hypothesis is needed. -/
theorem matrix_builders_zero_diagonal (resp : Resp) (n : ℕ)
    (hdiag : ∀ i, i < n → (resp i i).status = "OK" →
      (resp i i).distanceValue = some 0 ∧ (resp i i).durationValue = some 0) :
    ∀ i, i < n →
      (build_full_matrix resp n).1 i i = 0 ∧
        (build_full_matrix resp n).2 i i = 0 ∧
        (distance_time_matrices_gmaps_chunked resp n).1 i i = 0 ∧
        (distance_time_matrices_gmaps_chunked resp n).2 i i = 0 := by
  intro i hi
  have h1 : (build_full_matrix resp n).1 i i = maps_dm_cell resp i i :=
    assemble_eq_cell _ _ hi hi
  have h2 : (build_full_matrix resp n).2 i i = maps_tm_cell resp i i :=
    assemble_eq_cell _ _ hi hi
  have h3 : (distance_time_matrices_gmaps_chunked resp n).1 i i
      = routing_tm_cell resp i i := assemble_eq_cell _ _ hi hi
  have h4 : (distance_time_matrices_gmaps_chunked resp n).2 i i
      = routing_dm_cell resp i i := assemble_eq_cell _ _ hi hi
  rw [h1, h2, h3, h4]
  unfold maps_dm_cell maps_tm_cell routing_tm_cell routing_dm_cell
  by_cases hok : (resp i i).status = "OK"
  · obtain ⟨hd, ht⟩ := hdiag i hi hok
    simp [hok, hd, ht]
  · simp [hok]

/-- A response reporting "OK" with nonzero values on the diagonal. -/
def ok_diag_resp : Resp := fun _ _ => ⟨"OK", some 5, some 7⟩

/-- C6 counterexample: for a service response whose diagonal element is "OK"
with a nonzero duration value, `MapsService._build_full_matrix` stores that
value on the diagonal — the assembled duration matrix has
`tm[0][0] = 7 ≠ 0`, so the claim does not hold for every service
response. -/
theorem build_full_matrix_nonzero_diagonal :
    (build_full_matrix ok_diag_resp 1).2 0 0 = 7 ∧
      ((build_full_matrix ok_diag_resp 1).2 0 0 = 0 → False) := by
  refine ⟨by decide, by decide⟩

/-- A response with every element unreachable. -/
def all_not_found_resp : Resp := fun _ _ => ⟨"NOT_FOUND", none, none⟩

/-- Witness for the amended C6 theorem at a concrete response. -/
theorem matrix_builders_zero_diagonal_witness :
    (build_full_matrix all_not_found_resp 2).1 0 0 = 0 ∧
      (build_full_matrix all_not_found_resp 2).2 0 0 = 0 ∧
      (distance_time_matrices_gmaps_chunked all_not_found_resp 2).1 0 0 = 0 ∧
      (distance_time_matrices_gmaps_chunked all_not_found_resp 2).2 0 0 = 0 :=
  matrix_builders_zero_diagonal all_not_found_resp 2 (by decide) 0 (by decide)

-- ---------------------------------------------------------------------------
-- services/routing.py : reorder_vehicle_with_google
-- ---------------------------------------------------------------------------

/-- The final accumulation loop of `reorder_vehicle_with_google`: walk the
consecutive pairs of the optimized order, add each leg's distance and time,
and stop (after adding the return leg) as soon as the pair returns to the
depot `b == 0`; addresses are collected for the pairs before the break. -/
def collect_legs (locations : List String) (tmat dmat : ℕ → ℕ → ℤ) :
    List (ℕ × ℕ) → List String × ℤ × ℤ
  | [] => ([], 0, 0)
  | ab :: rest =>
    if ab.2 = 0 then ([], dmat ab.1 ab.2, tmat ab.1 ab.2)
    else
      let r := collect_legs locations tmat dmat rest
      (locations.getD ab.2 "" :: r.1, dmat ab.1 ab.2 + r.2.1,
        tmat ab.1 ab.2 + r.2.2)

/-- Embedding of `reorder_vehicle_with_google(api_key, depot_address,
stop_addresses)`.  The source constructs a Google client and computes
`tmat, dmat = _distance_time_matrices_gmaps_chunked(client, locations)`;
the client is external, so the embedding takes the computed duration and
distance matrices as arguments and performs the remaining steps:
nearest-neighbor initial order, 2-opt with 25 passes, and the
leg-accumulation loop that strips the trailing depot. -/
def reorder_vehicle_with_google (tmat dmat : ℕ → ℕ → ℤ) (depot : String)
    (stops : List String) : List String × ℤ × ℤ :=
  if stops = [] then ([], 0, 0)
  else
    let locations := depot :: stops
    let order0 := nearest_neighbor_order tmat locations.length
    let order := two_opt tmat 25 order0
    collect_legs locations tmat dmat (order.zip order.tail)

/-- A duration matrix over depot 0 and stops 1 (A), 2 (B), 3 (C) for which
the round trip 0→3→1→2→0 (D→C→A→B→D) is strictly cheapest, but
nearest-neighbor starts 0→1 and 2-opt's neighborhood for three stops (only
the first two stops can be swapped) cannot reach the optimum. -/
def trap_tm : ℕ → ℕ → ℤ := fun i j =>
  match i, j with
  | 0, 1 => 1 | 0, 2 => 3 | 0, 3 => 2
  | 1, 0 => 5 | 1, 2 => 1 | 1, 3 => 10
  | 2, 0 => 1 | 2, 1 => 5 | 2, 3 => 50
  | 3, 0 => 1 | 3, 1 => 1 | 3, 2 => 10
  | _, _ => 0

/-- C5 counterexample: under `trap_tm` the round trip D→C→A→B→D
([0,3,1,2,0]) is strictly shorter than all five other round trips, yet
`reorder_vehicle_with_google` returns ["B", "A", "C"], not ["C", "A", "B"]:
the heuristic pipeline does not always find the unique optimum. -/
theorem reorder_vehicle_misses_unique_optimum :
    route_cost trap_tm [0, 3, 1, 2, 0] < route_cost trap_tm [0, 1, 2, 3, 0] ∧
    route_cost trap_tm [0, 3, 1, 2, 0] < route_cost trap_tm [0, 1, 3, 2, 0] ∧
    route_cost trap_tm [0, 3, 1, 2, 0] < route_cost trap_tm [0, 2, 1, 3, 0] ∧
    route_cost trap_tm [0, 3, 1, 2, 0] < route_cost trap_tm [0, 2, 3, 1, 0] ∧
    route_cost trap_tm [0, 3, 1, 2, 0] < route_cost trap_tm [0, 3, 2, 1, 0] ∧
    (reorder_vehicle_with_google trap_tm (fun _ _ => 0) "D" ["A", "B", "C"]).1
      = ["B", "A", "C"] ∧
    ((reorder_vehicle_with_google trap_tm (fun _ _ => 0) "D" ["A", "B", "C"]).1
      = ["C", "A", "B"] → False) := by
  decide

/-- C5 (amended): for every duration matrix over depot D and stops A, B, C
under which the round trip D→C→A→B→D is strictly shorter than every other
round trip AND the nearest-neighbor initial order is [0, 3, 1, 2, 0]
(D, C, A, B, D), `reorder_vehicle_with_google` returns the ordered stop list
["C", "A", "B"] with total duration equal to the sum of the durations of the
legs D→C, C→A, A→B, B→D.  (Without the nearest-neighbor hypothesis the claim
fails: 2-opt's neighborhood for three stops cannot always reach the unique
optimum, see the counterexample.) -/
theorem reorder_vehicle_returns_unique_optimum (tmat dmat : ℕ → ℕ → ℤ)
    (hnn : nearest_neighbor_order tmat 4 = [0, 3, 1, 2, 0])
    (h1 : route_cost tmat [0, 3, 1, 2, 0] < route_cost tmat [0, 1, 2, 3, 0])
    (h2 : route_cost tmat [0, 3, 1, 2, 0] < route_cost tmat [0, 1, 3, 2, 0])
    (h3 : route_cost tmat [0, 3, 1, 2, 0] < route_cost tmat [0, 2, 1, 3, 0])
    (h4 : route_cost tmat [0, 3, 1, 2, 0] < route_cost tmat [0, 2, 3, 1, 0])
    (h5 : route_cost tmat [0, 3, 1, 2, 0] < route_cost tmat [0, 3, 2, 1, 0]) :
    (reorder_vehicle_with_google tmat dmat "D" ["A", "B", "C"]).1
        = ["C", "A", "B"] ∧
      (reorder_vehicle_with_google tmat dmat "D" ["A", "B", "C"]).2.2
        = tmat 0 3 + tmat 3 1 + tmat 1 2 + tmat 2 0 := by
  have hskip12 : ∀ st : List ℕ × ℤ × Bool, two_opt_step tmat st (1, 2) = st := by
    intro st
    unfold two_opt_step
    norm_num
  have hskip23 : ∀ st : List ℕ × ℤ × Bool, two_opt_step tmat st (2, 3) = st := by
    intro st
    unfold two_opt_step
    norm_num
  have hstep13 : two_opt_step tmat
      (([0, 3, 1, 2, 0] : List ℕ), route_cost tmat [0, 3, 1, 2, 0], false) (1, 3)
      = (([0, 3, 1, 2, 0] : List ℕ), route_cost tmat [0, 3, 1, 2, 0], false) := by
    unfold two_opt_step
    norm_num
    exact le_of_lt h2
  have hpass : two_opt_pass tmat 5
      (([0, 3, 1, 2, 0] : List ℕ), route_cost tmat [0, 3, 1, 2, 0], false)
      = (([0, 3, 1, 2, 0] : List ℕ), route_cost tmat [0, 3, 1, 2, 0], false) := by
    unfold two_opt_pass
    rw [show pass_pairs 5 = [(1, 2), (1, 3), (2, 3)] from rfl]
    rw [List.foldl_cons, hskip12, List.foldl_cons, hstep13, List.foldl_cons,
      hskip23, List.foldl_nil]
  have htwo : two_opt tmat 25 [0, 3, 1, 2, 0] = [0, 3, 1, 2, 0] := by
    unfold two_opt
    rw [if_neg (by decide : ¬ ([0, 3, 1, 2, 0] : List ℕ).length < 5)]
    rw [show ([0, 3, 1, 2, 0] : List ℕ).length = 5 from rfl]
    rw [two_opt_loop]
    rw [show ((([0, 3, 1, 2, 0] : List ℕ), route_cost tmat [0, 3, 1, 2, 0]).1,
      (([0, 3, 1, 2, 0] : List ℕ), route_cost tmat [0, 3, 1, 2, 0]).2, false)
      = (([0, 3, 1, 2, 0] : List ℕ), route_cost tmat [0, 3, 1, 2, 0], false)
      from rfl]
    rw [hpass]
    simp
  unfold reorder_vehicle_with_google
  rw [if_neg (by decide : ¬ (["A", "B", "C"] : List String) = [])]
  simp only [List.length_cons, List.length_nil]
  rw [show (0 : ℕ) + 1 + 1 + 1 + 1 = 4 from rfl, hnn, htwo]
  rw [show (([0, 3, 1, 2, 0] : List ℕ).zip ([0, 3, 1, 2, 0] : List ℕ).tail)
    = [(0, 3), (3, 1), (1, 2), (2, 0)] from rfl]
  simp only [collect_legs]
  norm_num
  ring

/-- A duration matrix whose nearest-neighbor walk from the depot is
[0, 3, 1, 2, 0] and for which that round trip is strictly cheapest. -/
def good_tm : ℕ → ℕ → ℤ := fun i j =>
  match i, j with
  | 0, 1 => 5 | 0, 2 => 6 | 0, 3 => 1
  | 1, 0 => 5 | 1, 2 => 1 | 1, 3 => 9
  | 2, 0 => 1 | 2, 1 => 5 | 2, 3 => 9
  | 3, 0 => 9 | 3, 1 => 1 | 3, 2 => 6
  | _, _ => 0

/-- Witness for the amended C5 theorem at a concrete duration matrix. -/
theorem reorder_vehicle_returns_unique_optimum_witness :
    (reorder_vehicle_with_google good_tm (fun _ _ => 0) "D" ["A", "B", "C"]).1
        = ["C", "A", "B"] ∧
      (reorder_vehicle_with_google good_tm (fun _ _ => 0) "D"
          ["A", "B", "C"]).2.2
        = good_tm 0 3 + good_tm 3 1 + good_tm 1 2 + good_tm 2 0 :=
  reorder_vehicle_returns_unique_optimum good_tm (fun _ _ => 0)
    (by decide) (by decide) (by decide) (by decide) (by decide) (by decide)

-- ---------------------------------------------------------------------------
-- services/maps.py : MapsService caching and offline behaviour
-- ---------------------------------------------------------------------------

/-- The exception raised by `MapsService` (utils/exceptions.py
`MapsAPIError`; the spec's `MatrixUnavailable`). -/
structure MapsAPIError where
  msg : String
deriving DecidableEq

/-- A matrix cache record: the payload dict written by
`get_distance_time_matrices` (`distance_matrix`, `time_matrix`,
`locations`). -/
structure Payload where
  distance_matrix : List (List ℤ)
  time_matrix : List (List ℤ)
  locations : List String
deriving DecidableEq

/-- The mutable state of a `MapsService` instance: the cache directory's
records (keyed by request hash) and the running `request_count`. -/
structure MapsState where
  cache : List (String × Payload)
  request_count : ℕ
deriving DecidableEq

/-- Embedding of `MapsService._key(deliveries, depots)`: the source md5-hashes
a canonical JSON serialization of the two ordered lists; the embedding uses
the canonical serialization itself as the key.  The code compares cache
records only by exact key equality, and identical inputs give identical
keys, which is all the claims rely on. -/
def maps_key (deliveries depots : List String) : String :=
  "deliveries:" ++ String.intercalate "," deliveries
    ++ ";depots:" ++ String.intercalate "," depots

/-- Embedding of `MapsService._load_cache(key)`: returns the stored record
for `key` unless `FORCE_REFRESH` is set.  Python's `if cached:` truthiness
test on the (necessarily non-empty) payload dict is `Option.isSome`. -/
def load_cache (forceRefresh : Bool) (st : MapsState) (key : String) :
    Option Payload :=
  if forceRefresh then none else st.cache.lookup key

/-- Embedding of `MapsService._distance_matrix_tile(origins, destinations)`:
raises `MapsAPIError` when no client exists (offline mode), otherwise counts
the request and yields the response (the tile loop reads the sub-grid at its
global offsets). -/
def distance_matrix_tile (client : Option Resp) (count : ℕ) :
    Except MapsAPIError (Resp × ℕ) :=
  match client with
  | none =>
    .error ⟨"Distance Matrix requested in offline mode (USE_REAL_API=0)."⟩
  | some resp => .ok (resp, count + 1)

/-- The `(i0, j0)` tile pairs visited by `_build_full_matrix`'s loops. -/
def tile_pairs (n : ℕ) : List (ℕ × ℕ) :=
  (tiles n).flatMap (fun i0 => (tiles n).map (fun j0 => (i0, j0)))

/-- One tile's writes into both matrices (`_build_full_matrix` inner loops). -/
def apply_tile (resp : Resp) (n i0 j0 : ℕ)
    (mats : (ℕ → ℕ → ℤ) × (ℕ → ℕ → ℤ)) : (ℕ → ℕ → ℤ) × (ℕ → ℕ → ℤ) :=
  ((tile_cells n i0 j0).foldl
      (fun M ij => mset M ij.1 ij.2 (maps_dm_cell resp ij.1 ij.2)) mats.1,
   (tile_cells n i0 j0).foldl
      (fun M ij => mset M ij.1 ij.2 (maps_tm_cell resp ij.1 ij.2)) mats.2)

/-- The tile loop of `_build_full_matrix` with the per-tile service call that
can raise in offline mode, threading `request_count`. -/
def build_tiles (client : Option Resp) (n : ℕ) :
    List (ℕ × ℕ) → ((ℕ → ℕ → ℤ) × (ℕ → ℕ → ℤ)) × ℕ →
      Except MapsAPIError (((ℕ → ℕ → ℤ) × (ℕ → ℕ → ℤ)) × ℕ)
  | [], st => .ok st
  | p :: rest, (mats, count) =>
    match distance_matrix_tile client count with
    | .error e => .error e
    | .ok (resp, count1) =>
      build_tiles client n rest (apply_tile resp n p.1 p.2 mats, count1)

/-- Embedding of `MapsService._build_full_matrix(locations)` including the
offline failure path and request counting (`np.zeros` initial matrices; `n = 0`
returns before any tile call). -/
def build_full_matrix_api (client : Option Resp) (n count : ℕ) :
    Except MapsAPIError (((ℕ → ℕ → ℤ) × (ℕ → ℕ → ℤ)) × ℕ) :=
  if n = 0 then .ok (((fun _ _ => 0), (fun _ _ => 0)), count)
  else build_tiles client n (tile_pairs n) (((fun _ _ => 0), (fun _ _ => 0)), count)

/-- Serialization of an assembled matrix (`ndarray.tolist()`). -/
def mat_to_list (n : ℕ) (M : ℕ → ℕ → ℤ) : List (List ℤ) :=
  (List.range n).map (fun i => (List.range n).map (fun j => M i j))

/-- Embedding of `MapsService.get_distance_time_matrices(deliveries,
depots)`: look up the cache record for the request key and return it
unconditionally when present; otherwise build the matrices over
`locations = depots + deliveries` (raising in offline mode), store the
payload under the key, and return it.  Matrices are returned in their
serialized list-of-rows form, as stored in the payload (`ndarray.tolist()`
and `np.array(lists)` are mutually inverse, so this loses nothing). -/
def get_distance_time_matrices (client : Option Resp) (forceRefresh : Bool)
    (st : MapsState) (deliveries depots : List String) :
    Except MapsAPIError
      ((List (List ℤ) × List (List ℤ) × List String) × MapsState) :=
  match load_cache forceRefresh st (maps_key deliveries depots) with
  | some payload =>
    .ok ((payload.distance_matrix, payload.time_matrix, payload.locations), st)
  | none =>
    match build_full_matrix_api client (depots ++ deliveries).length
        st.request_count with
    | .error e => .error e
    | .ok (mats, count) =>
      .ok ((mat_to_list (depots ++ deliveries).length mats.1,
            mat_to_list (depots ++ deliveries).length mats.2,
            depots ++ deliveries),
        ⟨(maps_key deliveries depots,
          ⟨mat_to_list (depots ++ deliveries).length mats.1,
           mat_to_list (depots ++ deliveries).length mats.2,
           depots ++ deliveries⟩) :: st.cache, count⟩)

/-- C4: calling `get_distance_time_matrices` a second time with the identical
delivery and depot lists, with caching enabled and force-refresh off, returns
exactly the first call's matrices and leaves the state unchanged — in
particular `request_count` does not grow, so no second external
distance-matrix call is issued: the cached record for the request key is
returned unconditionally. -/
theorem get_distance_time_matrices_idempotent (client : Option Resp)
    (st : MapsState) (deliveries depots : List String)
    (r1 : List (List ℤ) × List (List ℤ) × List String) (st1 : MapsState)
    (h : get_distance_time_matrices client false st deliveries depots
      = .ok (r1, st1)) :
    get_distance_time_matrices client false st1 deliveries depots
      = .ok (r1, st1) := by
  unfold get_distance_time_matrices at h ⊢
  cases hl : load_cache false st (maps_key deliveries depots) with
  | some payload =>
    rw [hl] at h
    simp only [Except.ok.injEq, Prod.mk.injEq] at h
    obtain ⟨hr, hst⟩ := h
    subst hst
    rw [hl]
    rw [← hr]
  | none =>
    rw [hl] at h
    cases hb : build_full_matrix_api client (depots ++ deliveries).length
        st.request_count with
    | error e =>
      rw [hb] at h
      simp at h
    | ok mc =>
      obtain ⟨mats, count⟩ := mc
      rw [hb] at h
      simp only [Except.ok.injEq, Prod.mk.injEq] at h
      obtain ⟨hr, hst⟩ := h
      have hl1 : load_cache false st1 (maps_key deliveries depots)
          = some ⟨mat_to_list (depots ++ deliveries).length mats.1,
                  mat_to_list (depots ++ deliveries).length mats.2,
                  depots ++ deliveries⟩ := by
        rw [← hst]
        unfold load_cache
        simp [List.lookup]
      rw [hl1, ← hr]

/-- A cache record and a state already holding it for the request
(deliveries=["a"], depots=["d"]). -/
def sample_payload : Payload := ⟨[[0]], [[0]], ["d"]⟩

def sample_state : MapsState :=
  ⟨[(maps_key ["a"] ["d"], sample_payload)], 0⟩

/-- Witness for the C4 idempotence theorem at a concrete warm cache. -/
theorem get_distance_time_matrices_idempotent_witness :
    get_distance_time_matrices none false sample_state ["a"] ["d"]
      = .ok ((sample_payload.distance_matrix, sample_payload.time_matrix,
          sample_payload.locations), sample_state) :=
  get_distance_time_matrices_idempotent none sample_state ["a"] ["d"] _ _ rfl

/-- Embedding of `MapsService.__init__`'s client setup: a Google client is
constructed only when `USE_REAL_API` is set; offline mode leaves it `None`. -/
def init_client (useRealApi : Bool) (resp : Resp) : Option Resp :=
  if useRealApi then some resp else none

theorem tiles_ne_nil {n : ℕ} (hn : n ≠ 0) : tiles n ≠ [] := by
  unfold tiles
  intro h
  have hlen := congrArg List.length h
  rw [List.length_range'] at hlen
  unfold TILE_SIZE at hlen
  simp at hlen
  omega

theorem tile_pairs_ne_nil {n : ℕ} (hn : n ≠ 0) : tile_pairs n ≠ [] := by
  unfold tile_pairs
  cases htiles : tiles n with
  | nil => exact absurd htiles (tiles_ne_nil hn)
  | cons t ts => simp

/-- With no client, the first tile call of the loop raises. -/
theorem build_tiles_offline (n count : ℕ)
    (mats : (ℕ → ℕ → ℤ) × (ℕ → ℕ → ℤ)) (pairs : List (ℕ × ℕ))
    (hp : pairs ≠ []) :
    build_tiles none n pairs (mats, count)
      = .error ⟨"Distance Matrix requested in offline mode (USE_REAL_API=0)."⟩ := by
  cases pairs with
  | nil => exact absurd rfl hp
  | cons p rest => rfl

/-- C8: in offline mode (`USE_REAL_API = 0`, so `__init__` leaves the client
`None`), every call of `MapsService.get_distance_time_matrices` that must
compute a fresh, non-cached matrix (a cache miss with at least one location,
hence at least one tile) fails explicitly with `MapsAPIError` rather than
returning fabricated distance or duration data. -/
theorem offline_fresh_matrix_raises (resp : Resp) (forceRefresh : Bool)
    (st : MapsState) (deliveries depots : List String)
    (hmiss : load_cache forceRefresh st (maps_key deliveries depots) = none)
    (hne : depots ++ deliveries ≠ []) :
    get_distance_time_matrices (init_client false resp) forceRefresh st
        deliveries depots
      = .error ⟨"Distance Matrix requested in offline mode (USE_REAL_API=0)."⟩ := by
  unfold get_distance_time_matrices
  rw [hmiss]
  have hn : (depots ++ deliveries).length ≠ 0 := by
    intro h
    exact hne (List.length_eq_zero.mp h)
  rw [show init_client false resp = none from rfl]
  unfold build_full_matrix_api
  rw [if_neg hn]
  rw [build_tiles_offline _ _ _ _ (tile_pairs_ne_nil hn)]

/-- Witness for the C8 theorem: offline service, empty cache, one depot and
one delivery. -/
theorem offline_fresh_matrix_raises_witness :
    get_distance_time_matrices (init_client false all_not_found_resp) false
        ⟨[], 0⟩ ["a"] ["d"]
      = .error ⟨"Distance Matrix requested in offline mode (USE_REAL_API=0)."⟩ :=
  offline_fresh_matrix_raises all_not_found_resp false ⟨[], 0⟩ ["a"] ["d"]
    rfl (by decide)

-- ---------------------------------------------------------------------------
-- services/routing.py : dynamic_no_crossing_routes (Stop Assigner)
-- ---------------------------------------------------------------------------

/-- The single-depot branch's `while pool:` loop: pop the pool element
nearest to the current position, append its address, advance.  Fuel is the
initial pool length. -/
def single_vehicle_order (dist : Coord → Coord → ℚ) :
    ℕ → Coord → List (String × Coord) → List String
  | 0, _, _ => []
  | fuel + 1, cur, pool =>
    match argmin (fun ac => dist cur ac.2) pool with
    | none => []
    | some (i, ac) =>
      ac.1 :: single_vehicle_order dist fuel ac.2 (pool.eraseIdx i)

/-- Phase 1 of the multi-depot branch: round-robin greedy assignment.  Each
turn, vehicle `turn % m` pops its nearest remaining stop and advances its
current position.  State: per-vehicle `(addr, coord)` route lists and
current positions.  Fuel is the initial pool length. -/
def phase1 (dist : Coord → Coord → ℚ) (m : ℕ) :
    ℕ → (ℕ → List (String × Coord)) → (ℕ → Coord) →
      List (String × Coord) → ℕ → (ℕ → List (String × Coord))
  | 0, routes, _, _, _ => routes
  | fuel + 1, routes, cur, pool, turn =>
    match argmin (fun ac => dist (cur (turn % m)) ac.2) pool with
    | none => routes
    | some (i, ac) =>
      phase1 dist m fuel
        (Function.update routes (turn % m) (routes (turn % m) ++ [ac]))
        (Function.update cur (turn % m) ac.2)
        (pool.eraseIdx i) (turn + 1)

/-- Concatenation of the per-vehicle lists in vehicle order `0 .. m-1`
(Python dict iteration over `routes.items()` in insertion order). -/
def join_routes {α : Type} (f : ℕ → List α) : ℕ → List α
  | 0 => []
  | m + 1 => join_routes f m ++ f m

/-- Python's `min(range(m), key=f)`: the least vehicle index attaining the
minimum (ties broken by lowest index). -/
def argmin_range (f : ℕ → ℚ) (m : ℕ) : ℕ :=
  match argmin f (List.range m) with
  | none => 0
  | some p => p.2

/-- Phase 2 of the multi-depot branch: re-assign every stop, in phase-1
visiting order, to the vehicle whose current tour end is nearest, growing
that vehicle's end. -/
def phase2 (dist : Coord → Coord → ℚ) (m : ℕ) :
    List (String × Coord) → (ℕ → List (String × Coord)) → (ℕ → Coord) →
      (ℕ → List (String × Coord))
  | [], newRoutes, _ => newRoutes
  | ac :: rest, newRoutes, ends =>
    let chosen := argmin_range (fun v => dist (ends v) ac.2) m
    phase2 dist m rest
      (Function.update newRoutes chosen (newRoutes chosen ++ [ac]))
      (Function.update ends chosen ac.2)

/-- Embedding of `dynamic_no_crossing_routes(depots_coords,
deliveries_coords)`, parameterized over the distance function (the source
uses floating-point haversine; every claim about this function holds for an
arbitrary distance).  The deliveries dict is embedded as its item list
`[(addr, coord), ...]`; the returned dict `{vid: [addr, ...]}` as the list
of address lists for vehicles `0 .. m-1`. -/
def dynamic_no_crossing_routes (dist : Coord → Coord → ℚ)
    (depots : List Coord) (deliveries : List (String × Coord)) :
    List (List String) :=
  if depots.length = 0 then []
  else if depots.length = 1 then
    [single_vehicle_order dist deliveries.length (depots.getD 0 (0, 0))
      deliveries]
  else
    (List.range depots.length).map (fun v =>
      ((phase2 dist depots.length
          (join_routes
            (phase1 dist depots.length deliveries.length (fun _ => [])
              (fun w => depots.getD w (0, 0)) deliveries 0)
            depots.length)
          (fun _ => []) (fun w => depots.getD w (0, 0))) v).map Prod.fst)

/-- Modelled from the spec (§4.3): "If exactly one depot: a single
nearest-successor walk — repeatedly pick, from the remaining pool, the stop
nearest (straight-line / great-circle distance) to the current position,
starting at the depot; append and advance."  Written from the spec's words
for the refinement claim, to be compared with the source's single-depot
branch. -/
def nn_walk_spec (dist : Coord → Coord → ℚ) :
    ℕ → Coord → List (String × Coord) → List String
  | 0, _, _ => []
  | fuel + 1, pos, pool =>
    match argmin (fun ac => dist pos ac.2) pool with
    | none => []
    | some (i, ac) => ac.1 :: nn_walk_spec dist fuel ac.2 (pool.eraseIdx i)

theorem single_vehicle_eq_nn_walk (dist : Coord → Coord → ℚ) :
    ∀ (fuel : ℕ) (pos : Coord) (pool : List (String × Coord)),
      single_vehicle_order dist fuel pos pool = nn_walk_spec dist fuel pos pool := by
  intro fuel
  induction fuel with
  | zero => intro pos pool; rfl
  | succ fuel ih =>
    intro pos pool
    unfold single_vehicle_order nn_walk_spec
    cases argmin (fun ac => dist pos ac.2) pool with
    | none => rfl
    | some p => simp [ih]

/-- C7: with exactly one depot, the Stop Assigner's output for vehicle 0 is
exactly the spec's pure nearest-neighbor walk from the depot over all
stops. -/
theorem single_depot_assignment_is_nn_walk (dist : Coord → Coord → ℚ)
    (d : Coord) (deliveries : List (String × Coord)) :
    dynamic_no_crossing_routes dist [d] deliveries
      = [nn_walk_spec dist deliveries.length d deliveries] := by
  unfold dynamic_no_crossing_routes
  norm_num
  exact single_vehicle_eq_nn_walk dist deliveries.length d deliveries

theorem join_routes_congr {α : Type} (f g : ℕ → List α) :
    ∀ m : ℕ, (∀ i, i < m → f i = g i) → join_routes f m = join_routes g m := by
  intro m
  induction m with
  | zero => intro _; rfl
  | succ m ih =>
    intro h
    unfold join_routes
    rw [ih (fun i hi => h i (by omega)), h m (by omega)]

theorem join_routes_nil {α : Type} :
    ∀ m : ℕ, join_routes (fun _ => ([] : List α)) m = [] := by
  intro m
  induction m with
  | zero => rfl
  | succ m ih => unfold join_routes; rw [ih]; rfl

/-- Appending one element to one in-range vehicle's list permutes the joined
assignment by inserting that element. -/
theorem join_routes_update {α : Type} (f : ℕ → List α) (x : α) :
    ∀ m k : ℕ, k < m →
      (join_routes (Function.update f k (f k ++ [x])) m).Perm
        (x :: join_routes f m) := by
  intro m
  induction m with
  | zero => intro k hk; omega
  | succ m ih =>
    intro k hk
    unfold join_routes
    by_cases hkm : k = m
    · subst hkm
      rw [Function.update_same]
      rw [join_routes_congr (Function.update f k (f k ++ [x])) f k
          (fun i hi => Function.update_noteq (by omega) _ _)]
      rw [← List.append_assoc]
      exact List.perm_append_singleton x _
    · have hk2 : k < m := by omega
      have hne : m ≠ k := by omega
      rw [Function.update_noteq hne]
      have h1 := List.Perm.append_right (f m) (ih k hk2)
      simpa using h1

theorem argmin_range_lt (f : ℕ → ℚ) {m : ℕ} (hm : 0 < m) :
    argmin_range f m < m := by
  unfold argmin_range
  cases hp : argmin f (List.range m) with
  | none => exact hm
  | some p =>
    have hmem : p.2 ∈ List.range m :=
      (argmin_perm f (List.range m) p.1 p.2 hp).symm.subset
        (List.mem_cons_self _ _)
    exact List.mem_range.mp hmem

/-- Phase 1 multiset invariant: the joined assignment plus the remaining pool
is a permutation of the joined start state plus the starting pool. -/
theorem phase1_perm (dist : Coord → Coord → ℚ) (m : ℕ) (hm : 0 < m) :
    ∀ (fuel : ℕ) (pool : List (String × Coord))
      (routes : ℕ → List (String × Coord)) (cur : ℕ → Coord) (turn : ℕ),
      pool.length ≤ fuel →
      (join_routes (phase1 dist m fuel routes cur pool turn) m).Perm
        (join_routes routes m ++ pool) := by
  intro fuel
  induction fuel with
  | zero =>
    intro pool routes cur turn hlen
    have hpool : pool = [] := List.length_eq_zero.mp (by omega)
    subst hpool
    simp [phase1]
  | succ fuel ih =>
    intro pool routes cur turn hlen
    unfold phase1
    cases hp : argmin (fun ac => dist (cur (turn % m)) ac.2) pool with
    | none =>
      have hpool : pool = [] := (argmin_eq_none _ pool).mp hp
      subst hpool
      simp
    | some p =>
      obtain ⟨i, ac⟩ := p
      have hperm := argmin_perm _ pool i ac hp
      have hlen2 : (pool.eraseIdx i).length ≤ fuel := by
        have := argmin_length_eraseIdx _ pool i ac hp
        omega
      have hrec := ih (pool.eraseIdx i)
        (Function.update routes (turn % m) (routes (turn % m) ++ [ac]))
        (Function.update cur (turn % m) ac.2) (turn + 1) hlen2
      have hupd := join_routes_update routes ac m (turn % m) (Nat.mod_lt _ hm)
      have h1 : (join_routes (phase1 dist m fuel
          (Function.update routes (turn % m) (routes (turn % m) ++ [ac]))
          (Function.update cur (turn % m) ac.2) (pool.eraseIdx i)
          (turn + 1)) m).Perm
          ((ac :: join_routes routes m) ++ pool.eraseIdx i) :=
        hrec.trans (List.Perm.append_right _ hupd)
      have h2 : ((ac :: join_routes routes m) ++ pool.eraseIdx i).Perm
          (join_routes routes m ++ pool) := by
        have h3 : (ac :: (join_routes routes m ++ pool.eraseIdx i)).Perm
            (join_routes routes m ++ (ac :: pool.eraseIdx i)) :=
          List.perm_middle.symm
        exact h3.trans (List.Perm.append_left _ hperm.symm)
      exact h1.trans h2

/-- Phase 2 multiset invariant. -/
theorem phase2_perm (dist : Coord → Coord → ℚ) (m : ℕ) (hm : 0 < m) :
    ∀ (flat : List (String × Coord))
      (newRoutes : ℕ → List (String × Coord)) (ends : ℕ → Coord),
      (join_routes (phase2 dist m flat newRoutes ends) m).Perm
        (join_routes newRoutes m ++ flat) := by
  intro flat
  induction flat with
  | nil =>
    intro newRoutes ends
    simp [phase2]
  | cons ac rest ih =>
    intro newRoutes ends
    unfold phase2
    have hlt := argmin_range_lt (fun v => dist (ends v) ac.2) hm
    have hrec := ih
      (Function.update newRoutes (argmin_range (fun v => dist (ends v) ac.2) m)
        (newRoutes (argmin_range (fun v => dist (ends v) ac.2) m) ++ [ac]))
      (Function.update ends (argmin_range (fun v => dist (ends v) ac.2) m) ac.2)
    have hupd := join_routes_update newRoutes ac m
      (argmin_range (fun v => dist (ends v) ac.2) m) hlt
    have h1 := hrec.trans (List.Perm.append_right _ hupd)
    have h2 : ((ac :: join_routes newRoutes m) ++ rest).Perm
        (join_routes newRoutes m ++ (ac :: rest)) := List.perm_middle.symm
    exact h1.trans h2

/-- The single-depot walk emits exactly the pool's addresses. -/
theorem single_vehicle_order_perm (dist : Coord → Coord → ℚ) :
    ∀ (fuel : ℕ) (pool : List (String × Coord)) (cur : Coord),
      pool.length ≤ fuel →
      (single_vehicle_order dist fuel cur pool).Perm (pool.map Prod.fst) := by
  intro fuel
  induction fuel with
  | zero =>
    intro pool cur hlen
    have hpool : pool = [] := List.length_eq_zero.mp (by omega)
    subst hpool
    simp [single_vehicle_order]
  | succ fuel ih =>
    intro pool cur hlen
    unfold single_vehicle_order
    cases hp : argmin (fun ac => dist cur ac.2) pool with
    | none =>
      have hpool : pool = [] := (argmin_eq_none _ pool).mp hp
      subst hpool
      simp
    | some p =>
      obtain ⟨i, ac⟩ := p
      have hperm := argmin_perm _ pool i ac hp
      have hlen2 : (pool.eraseIdx i).length ≤ fuel := by
        have := argmin_length_eraseIdx _ pool i ac hp
        omega
      have hrec := ih (pool.eraseIdx i) ac.2 hlen2
      have h1 : (ac.1 :: single_vehicle_order dist fuel ac.2 (pool.eraseIdx i)).Perm
          (ac.1 :: (pool.eraseIdx i).map Prod.fst) := hrec.cons ac.1
      have h2 : (ac.1 :: (pool.eraseIdx i).map Prod.fst)
          = (ac :: pool.eraseIdx i).map Prod.fst := rfl
      rw [h2] at h1
      exact h1.trans (hperm.map Prod.fst).symm

theorem count_join_sum {α : Type} [DecidableEq α] (a : α) :
    ∀ L : List (List α), L.flatten.count a = (L.map (fun l => l.count a)).sum := by
  intro L
  induction L with
  | nil => rfl
  | cons l L ih =>
    rw [List.flatten_cons, List.count_append, List.map_cons, List.sum_cons, ih]

theorem countP_eq_zero_of_sum {α : Type} [DecidableEq α] (a : α) :
    ∀ out : List (List α), (out.map (fun l => l.count a)).sum = 0 →
      out.countP (fun l => decide (a ∈ l)) = 0 := by
  intro out
  induction out with
  | nil => intro _; rfl
  | cons l L ih =>
    intro hsum
    rw [List.map_cons, List.sum_cons] at hsum
    have hl : l.count a = 0 := by omega
    have hmem : a ∉ l := List.count_eq_zero.mp hl
    rw [List.countP_cons]
    rw [ih (by omega)]
    simp [hmem]

theorem countP_eq_one_of_sum {α : Type} [DecidableEq α] (a : α) :
    ∀ out : List (List α), (out.map (fun l => l.count a)).sum = 1 →
      out.countP (fun l => decide (a ∈ l)) = 1 := by
  intro out
  induction out with
  | nil => intro h; simp at h
  | cons l L ih =>
    intro hsum
    rw [List.map_cons, List.sum_cons] at hsum
    rw [List.countP_cons]
    by_cases hl : l.count a = 0
    · have hmem : a ∉ l := List.count_eq_zero.mp hl
      rw [ih (by omega)]
      simp [hmem]
    · have hl1 : l.count a = 1 := by omega
      have hmem : a ∈ l := by
        by_contra hc
        exact hl (List.count_eq_zero.mpr hc)
      rw [countP_eq_zero_of_sum a L (by omega)]
      simp [hmem]

theorem join_map_fst (final : ℕ → List (String × Coord)) :
    ∀ m : ℕ,
      ((List.range m).map (fun v => (final v).map Prod.fst)).flatten
        = (join_routes final m).map Prod.fst := by
  intro m
  induction m with
  | zero => rfl
  | succ m ih =>
    rw [List.range_succ, List.map_append, List.flatten_append]
    unfold join_routes
    rw [ih, List.map_append]
    simp

/-- The joined output of the Stop Assigner is a permutation of the input
delivery addresses, for any number of depots. -/
theorem dynamic_routes_join_perm (dist : Coord → Coord → ℚ)
    (depots : List Coord) (deliveries : List (String × Coord))
    (hdep : depots ≠ []) :
    (dynamic_no_crossing_routes dist depots deliveries).flatten.Perm
      (deliveries.map Prod.fst) := by
  have hlen : ¬ depots.length = 0 := by
    intro h
    exact hdep (List.length_eq_zero.mp h)
  unfold dynamic_no_crossing_routes
  rw [if_neg hlen]
  by_cases h1 : depots.length = 1
  · rw [if_pos h1]
    have hp := single_vehicle_order_perm dist deliveries.length deliveries
      (depots.getD 0 (0, 0)) (le_refl _)
    simpa using hp
  · rw [if_neg h1]
    have hm : 0 < depots.length := Nat.pos_of_ne_zero hlen
    rw [join_map_fst]
    have hph2 := phase2_perm dist depots.length hm
      (join_routes
        (phase1 dist depots.length deliveries.length (fun _ => [])
          (fun w => depots.getD w (0, 0)) deliveries 0)
        depots.length)
      (fun _ => []) (fun w => depots.getD w (0, 0))
    have hph1 := phase1_perm dist depots.length hm deliveries.length
      deliveries (fun _ => []) (fun w => depots.getD w (0, 0)) 0 (le_refl _)
    rw [join_routes_nil] at hph2 hph1
    rw [List.nil_append] at hph2 hph1
    exact ((hph2.trans hph1).map Prod.fst)

/-- C1: for every non-empty delivery list (with distinct addresses) and every
non-empty depot list, the Stop Assigner's output places each delivery
address in exactly one vehicle's list, and the concatenation of all
vehicles' lists is a permutation of the input delivery addresses (no
duplicates, no omissions: set equality with multiplicity). -/
theorem stop_assignment_partitions (dist : Coord → Coord → ℚ)
    (depots : List Coord) (deliveries : List (String × Coord))
    (hdep : depots ≠ []) (hdel : deliveries ≠ [])
    (hnodup : (deliveries.map Prod.fst).Nodup) :
    (dynamic_no_crossing_routes dist depots deliveries).flatten.Perm
        (deliveries.map Prod.fst) ∧
      ∀ a ∈ deliveries.map Prod.fst,
        (dynamic_no_crossing_routes dist depots deliveries).countP
          (fun l => decide (a ∈ l)) = 1 := by
  refine ⟨dynamic_routes_join_perm dist depots deliveries hdep, ?_⟩
  intro a ha
  have hperm := dynamic_routes_join_perm dist depots deliveries hdep
  have hc1 : (dynamic_no_crossing_routes dist depots deliveries).flatten.count a
      = 1 := by
    rw [hperm.count_eq]
    exact List.count_eq_one_of_mem hnodup ha
  rw [count_join_sum] at hc1
  exact countP_eq_one_of_sum a _ hc1

/-- Witness for C1 at a concrete two-depot, three-delivery input. -/
theorem stop_assignment_partitions_witness :
    (dynamic_no_crossing_routes (fun p q => (p.1 - q.1) ^ 2 + (p.2 - q.2) ^ 2)
          [(0, 0), (10, 10)]
          [("a", (1, 1)), ("b", (9, 9)), ("c", (0, 2))]).flatten.Perm
        (["a", "b", "c"] : List String) ∧
      ∀ a ∈ (["a", "b", "c"] : List String),
        ((dynamic_no_crossing_routes (fun p q => (p.1 - q.1) ^ 2 + (p.2 - q.2) ^ 2)
          [(0, 0), (10, 10)]
          [("a", (1, 1)), ("b", (9, 9)), ("c", (0, 2))]).countP
          (fun l => decide (a ∈ l))) = 1 :=
  stop_assignment_partitions (fun p q => (p.1 - q.1) ^ 2 + (p.2 - q.2) ^ 2)
    [(0, 0), (10, 10)] [("a", (1, 1)), ("b", (9, 9)), ("c", (0, 2))]
    (by decide) (by decide) (by decide)

-- ---------------------------------------------------------------------------
-- Cache persistence: Geocoder._save_cache and MapsService._save_cache (C9)
-- ---------------------------------------------------------------------------

/-- A filesystem operation performed by a cache write.  `openTrunc` is
`open(path, "w")` (truncates the file), `append` is one chunk streamed by
`json.dump` into the open file, `rename` is `Path.replace` (atomic
rename). -/
inductive FsOp
  | openTrunc (p : String)
  | append (p : String) (s : String)
  | rename (src dst : String)

/-- File contents after one operation, with the filesystem as a map from
path to content. -/
def run_op (fs : String → Option String) : FsOp → String → Option String
  | .openTrunc p => fun q => if q = p then some "" else fs q
  | .append p s => fun q => if q = p then some ((fs p).getD "" ++ s) else fs q
  | .rename src dst =>
    fun q => if q = dst then fs src else if q = src then none else fs q

def run_ops (fs : String → Option String) (ops : List FsOp) :
    String → Option String :=
  ops.foldl run_op fs

/-- The operation sequence is an atomic whole-file replace of `target` by
`newContent`: a reader (or a crash) after any prefix of the operations sees
either the old content of `target`, untouched, or the complete new
content — never a truncated or partially written record. -/
def AtomicReplace (ops : List FsOp) (target newContent : String) : Prop :=
  ∀ (fs : String → Option String) (k : ℕ), k ≤ ops.length →
    run_ops fs (ops.take k) target = fs target ∨
      run_ops fs (ops.take k) target = some newContent

def GEOCODER_CACHE_FILE : String := "mapFleet/data/cache/coords.json"

/-- Embedding of `Geocoder._save_cache`: opens the cache file itself for
writing (truncating it) and streams the serialized cache into it, chunk by
chunk.  No temporary file, no rename. -/
def geocoder_save_cache (chunks : List String) : List FsOp :=
  .openTrunc GEOCODER_CACHE_FILE
    :: chunks.map (fun s => .append GEOCODER_CACHE_FILE s)

def maps_cache_path (key : String) : String := key ++ ".json"

def maps_tmp_path (key : String) : String := key ++ ".tmp"

/-- Embedding of `MapsService._save_cache`: stream the payload into the
sibling `.tmp` file, then rename it over the cache record
(`tmp.replace(p)`). -/
def maps_save_cache (key : String) (chunks : List String) : List FsOp :=
  .openTrunc (maps_tmp_path key)
    :: (chunks.map (fun s => .append (maps_tmp_path key) s)
        ++ [.rename (maps_tmp_path key) (maps_cache_path key)])

/-- C9 counterexample: the Geocoder's cache write truncates the cache file in
place before writing, so after the truncation a reader observes neither the
old record nor the complete new one — the write is not an atomic whole-file
replace, refuting the claim that every persistent cache write is. -/
theorem geocoder_save_cache_not_atomic :
    ¬ AtomicReplace (geocoder_save_cache ["new"]) GEOCODER_CACHE_FILE
      ((["new"] : List String).foldl (fun a b => a ++ b) "") := by
  intro h
  have h1 := h (fun q => if q = GEOCODER_CACHE_FILE then some "old" else none)
    1 (by decide)
  exact absurd h1 (by decide)

/-- Which paths an operation can modify. -/
def FsOp.avoids (op : FsOp) (q : String) : Prop :=
  match op with
  | .openTrunc p => q ≠ p
  | .append p _ => q ≠ p
  | .rename src dst => q ≠ src ∧ q ≠ dst

theorem run_op_avoids (fs : String → Option String) (op : FsOp) (q : String)
    (h : op.avoids q) : run_op fs op q = fs q := by
  cases op with
  | openTrunc p => simp only [FsOp.avoids] at h; simp [run_op, h]
  | append p s => simp only [FsOp.avoids] at h; simp [run_op, h]
  | rename src dst =>
    obtain ⟨h1, h2⟩ := h
    simp [run_op, h1, h2]

theorem run_ops_avoids (q : String) :
    ∀ (ops : List FsOp) (fs : String → Option String),
      (∀ op ∈ ops, op.avoids q) → run_ops fs ops q = fs q := by
  intro ops
  induction ops with
  | nil => intro fs _; rfl
  | cons op rest ih =>
    intro fs hall
    unfold run_ops
    rw [List.foldl_cons]
    have := ih (run_op fs op) (fun o ho => hall o (List.mem_cons_of_mem _ ho))
    unfold run_ops at this
    rw [this, run_op_avoids fs op q (hall op (List.mem_cons_self _ _))]

theorem run_ops_appends (p : String) :
    ∀ (chunks : List String) (fs : String → Option String) (c : String),
      fs p = some c →
      run_ops fs (chunks.map (fun s => FsOp.append p s)) p
        = some (chunks.foldl (fun a b => a ++ b) c) := by
  intro chunks
  induction chunks with
  | nil => intro fs c h; exact h
  | cons s rest ih =>
    intro fs c h
    unfold run_ops
    rw [List.map_cons, List.foldl_cons]
    have hstep : run_op fs (FsOp.append p s) p = some (c ++ s) := by
      simp [run_op, h]
    have := ih (run_op fs (FsOp.append p s)) (c ++ s) hstep
    unfold run_ops at this
    rw [this]
    rfl

theorem maps_tmp_ne_cache (key : String) :
    maps_tmp_path key ≠ maps_cache_path key := by
  unfold maps_tmp_path maps_cache_path
  intro h
  have hd := congrArg String.data h
  rw [String.data_append, String.data_append] at hd
  have h2 := List.append_cancel_left hd
  have h3 : (".tmp" : String) = ".json" := by
    have : (String.mk (".tmp" : String).data) = String.mk (".json" : String).data := by
      rw [h2]
    simpa using this
  exact absurd h3 (by decide)

/-- C9 (amended): `MapsService._save_cache` is an atomic whole-file replace —
the payload is streamed into the sibling `.tmp` file and renamed over the
record, so a reader after any prefix of the write sees either the old record
untouched or the complete new record.  (The Geocoder's `_save_cache`, by
contrast, truncates and rewrites its cache file in place and is not atomic;
see the counterexample.) -/
theorem maps_save_cache_atomic (key : String) (chunks : List String) :
    AtomicReplace (maps_save_cache key chunks) (maps_cache_path key)
      (chunks.foldl (fun a b => a ++ b) "") := by
  intro fs k hk
  have hne : maps_tmp_path key ≠ maps_cache_path key := maps_tmp_ne_cache key
  have hsplit : maps_save_cache key chunks
      = (FsOp.openTrunc (maps_tmp_path key)
          :: chunks.map (fun s => FsOp.append (maps_tmp_path key) s))
        ++ [FsOp.rename (maps_tmp_path key) (maps_cache_path key)] := by
    unfold maps_save_cache
    simp
  have hlen : (maps_save_cache key chunks).length = chunks.length + 2 := by
    rw [hsplit]
    simp
  by_cases hk2 : k ≤ chunks.length + 1
  · left
    rw [hsplit, List.take_append_of_le_length (by simp; omega)]
    apply run_ops_avoids
    intro op hop
    have hmem := List.take_subset k _ hop
    rcases List.mem_cons.mp hmem with h | h
    · rw [h]
      exact fun hc => hne hc.symm
    · obtain ⟨s, _, hs⟩ := List.mem_map.mp h
      rw [← hs]
      exact fun hc => hne hc.symm
  · right
    have hkeq : k = chunks.length + 2 := by omega
    have htake : (maps_save_cache key chunks).take k = maps_save_cache key chunks := by
      rw [hkeq, ← hlen]
      exact List.take_length _
    rw [htake, hsplit]
    unfold run_ops
    rw [List.foldl_append]
    have hfront : (FsOp.openTrunc (maps_tmp_path key)
          :: chunks.map (fun s => FsOp.append (maps_tmp_path key) s)).foldl
          run_op fs (maps_tmp_path key)
        = some (chunks.foldl (fun a b => a ++ b) "") := by
      rw [List.foldl_cons]
      have h0 : run_op fs (FsOp.openTrunc (maps_tmp_path key))
          (maps_tmp_path key) = some "" := by
        simp [run_op]
      have := run_ops_appends (maps_tmp_path key) chunks
        (run_op fs (FsOp.openTrunc (maps_tmp_path key))) "" h0
      unfold run_ops at this
      exact this
    rw [List.foldl_cons, List.foldl_nil]
    show run_op _ (FsOp.rename (maps_tmp_path key) (maps_cache_path key))
      (maps_cache_path key) = _
    simp only [run_op]
    simpa using hfront
